import Mathlib

/-!
Shallow embedding of `gpt_2_simple/src/adafactor.py` (the Adafactor
optimizer) and proofs about it.

Modelling conventions:
* TensorFlow float32/float64 arithmetic is embedded as exact real
  arithmetic over `ℝ`.  `tf.sqrt` is `Real.sqrt`, `tf.rsqrt x` is
  `(Real.sqrt x)⁻¹`, `tf.pow` with real exponent is `Real.rpow`,
  `tf.mod (x, 1.0)` for the floormod semantics is `Int.fract`.
* Rank-2 variables are embedded as `Fin a → Fin b → ℝ`; where a claim
  is about general shapes, shapes are `List ℕ` and tensors are the
  shape-indexed type `Tensor`.
* The global step is a natural number `t`; schedule functions take it
  explicitly (the python code reads it from the graph's global step).
* `tf.to_bfloat16` (round to nearest, ties to even, 8 significand
  bits) is embedded as rounding on the unbounded-exponent grid
  `{m * 2 ^ e : 2 ^ 7 ≤ m < 2 ^ 8}`; exponent overflow/underflow of
  the bfloat16 format is outside the modelled range.
-/

open Classical

noncomputable section

/-- Embeds `tf.rsqrt x = 1 / sqrt x` (adafactor.py uses `tf.rsqrt` at lines 249-250,
257, 284). -/
def rsqrt (x : ℝ) : ℝ := (Real.sqrt x)⁻¹

/-- Embeds `reduce_rms` (adafactor.py lines 357-358):
`tf.sqrt(tf.reduce_mean(tf.square(x)))`, the reduction running over all
elements of the tensor, which we index by an arbitrary finite type. -/
def reduce_rms {ι : Type} [Fintype ι] (x : ι → ℝ) : ℝ :=
  Real.sqrt ((∑ i, x i ^ 2) / (Fintype.card ι : ℝ))

/-- Embeds `adafactor_decay_rate_pow` (adafactor.py lines 304-312) evaluated at
global step `t`: `1.0 - tf.pow(step_num() + 1.0, -exponent)`. -/
def adafactor_decay_rate_pow (exponent : ℝ) (t : ℕ) : ℝ :=
  1 - ((t : ℝ) + 1) ^ (-exponent)

/-- Embeds `adafactor_decay_rate_adam` (adafactor.py lines 290-301) evaluated at
global step `t`: with `tt = t + 1`,
`beta2 * (1 - beta2 ^ (tt - 1)) / (1 - beta2 ^ tt)` (`tf.pow`). -/
def adafactor_decay_rate_adam (beta2 : ℝ) (t : ℕ) : ℝ :=
  beta2 * (1 - beta2 ^ (((t : ℝ) + 1) - 1)) / (1 - beta2 ^ ((t : ℝ) + 1))

/-- Embeds `_learning_rate_default` (adafactor.py lines 283-287) evaluated at
global step `t`: `min (rsqrt (t + 1)) 0.01`, times `0.05` when not
multiplying by the parameter scale. -/
def learning_rate_default (multiply_by_parameter_scale : Bool) (t : ℕ) : ℝ :=
  let learning_rate := min (rsqrt ((t : ℝ) + 1)) 0.01
  if multiply_by_parameter_scale then learning_rate else learning_rate * 0.05

/-- Embeds `noise_from_step_num` (adafactor.py lines 383-401) evaluated at global
step `t`.  `step = t + 1`; the addend for bit `i` is
`((phi * 2 ** i) % 1.0) * tf.to_float(tf.mod(step // (2 ** i), 2))`, and the
final `tf.mod(ret, 1.0)` is floormod, i.e. `Int.fract`. -/
def noise_from_step_num (t : ℕ) : ℝ :=
  let phi : ℝ := (Real.sqrt 5 - 1) / 2
  let step : ℕ := t + 1
  Int.fract (∑ i ∈ Finset.range 30,
    Int.fract (phi * 2 ^ i) * ((step / 2 ^ i % 2 : ℕ) : ℝ))

/-! ### bfloat16 rounding model

`tf.to_bfloat16` casts float32 to bfloat16, i.e. rounds to the nearest
value with an 8-bit significand, ties to even.  We model the grid with
unbounded exponent range (no overflow / subnormals), which is exact for
the magnitudes the claims are about. -/

/-- Exponent of the grid spacing (ulp) of the bfloat16 grid at a positive
real `y`: `y ∈ [2 ^ (k + 7), 2 ^ (k + 8))` has spacing `2 ^ k`. -/
def bfUlpExp (y : ℝ) : ℤ := Int.log 2 y - 7

/-- Grid spacing (ulp) of the bfloat16 grid at `y`. -/
def bfUlp (y : ℝ) : ℝ := (2 : ℝ) ^ bfUlpExp y

/-- Largest bfloat16 grid point `≤ y` (for `y > 0`). -/
def bfFloor (y : ℝ) : ℝ := (⌊y / bfUlp y⌋ : ℝ) * bfUlp y

/-- Round a positive real to the nearest bfloat16 grid point, ties to the
grid point with even significand. -/
def toBfloat16Pos (y : ℝ) : ℝ :=
  let u := bfUlp y
  let m : ℤ := ⌊y / u⌋
  let r : ℝ := y / u - (m : ℝ)
  if r < 1 / 2 then (m : ℝ) * u
  else if 1 / 2 < r then ((m : ℝ) + 1) * u
  else if m % 2 = 0 then (m : ℝ) * u else ((m : ℝ) + 1) * u

/-- Embeds `tf.to_bfloat16`: round to nearest bfloat16 (sign-symmetric). -/
def toBfloat16 (x : ℝ) : ℝ :=
  if 0 < x then toBfloat16Pos x
  else if x < 0 then -toBfloat16Pos (-x)
  else 0

/-- Embeds `_randomized_roundoff_to_bfloat16` (adafactor.py lines 524-544):
`fpart = (x - cand1) / (cand2 - cand1)`;
`ret = tf.where(tf.greater(fpart, noise), cand2, cand1)`. -/
def randomized_roundoff_to_bfloat16 (x noise cand1 cand2 : ℝ) : ℝ :=
  let step_size := cand2 - cand1
  let fpart := (x - cand1) / step_size
  if noise < fpart then cand2 else cand1

/-- Embeds `_to_bfloat16_unbiased` (adafactor.py lines 548-567).
`x_sign = tf.sign x`; `x = x * x_sign + 1e-30`; `cand1 = to_bfloat16 x`;
`cand2 = to_bfloat16 (where (x > cand1) (cand1 * 1.005) (cand1 * 0.995))`;
result `= randomized_roundoff(x, noise, cand1, cand2) * to_bfloat16 x_sign`. -/
def to_bfloat16_unbiased (x noise : ℝ) : ℝ :=
  let x_sign := Real.sign x
  let xp := x * x_sign + 1e-30
  let cand1 := toBfloat16 xp
  let cand2 := toBfloat16 (if cand1 < xp then cand1 * 1.005 else cand1 * 0.995)
  randomized_roundoff_to_bfloat16 xp noise cand1 cand2 * toBfloat16 x_sign

/-- The exact eighth-power magnitude the encoder computes by squaring
three times (adafactor.py line 582): `square (square (square (|x| * 128)))`. -/
def encoded_magnitude (x : ℝ) : ℝ := (((|x| * 128) ^ 2) ^ 2) ^ 2

/-- Embeds `EighthPowerEncoding.encode` (adafactor.py lines 578-584):
`x = sign x * square (square (square (abs x * 128)))`, then
`_to_bfloat16_unbiased (x, noise)`. -/
def eighth_power_encode (x noise : ℝ) : ℝ :=
  to_bfloat16_unbiased (Real.sign x * encoded_magnitude x) noise

/-- Embeds `EighthPowerEncoding.decode` (adafactor.py lines 586-590):
`sign x * (sqrt (sqrt (sqrt (abs x))) / 128)`. -/
def eighth_power_decode (x : ℝ) : ℝ :=
  Real.sign x * (Real.sqrt (Real.sqrt (Real.sqrt |x|)) / 128)

/-! ### simulated_quantize over shape-indexed tensors -/

/-- Tensor of a given shape: `Tensor [] = ℝ`,
`Tensor (d :: s) = Fin d → Tensor s`. -/
def Tensor : List ℕ → Type
  | [] => ℝ
  | d :: s => Fin d → Tensor s

/-- Maximum absolute value of a last-axis row (`tf.reduce_max (tf.abs x) (-1)`
in adafactor.py line 434); `0` on an empty axis (unreachable under the
guard of `simulated_quantize`). -/
def row_max_abs {n : ℕ} (row : Fin n → ℝ) : ℝ :=
  if h : (Finset.univ : Finset (Fin n)).Nonempty then
    Finset.univ.sup' h fun j => |row j|
  else 0

/-- The per-row body of `simulated_quantize` (adafactor.py lines 434-441):
`max_abs = reduce_max |x| + 1e-9`; `max_int = 2 ** (num_bits - 1) - 1`;
`scale = max_abs / max_int`; `x = floor (x / scale + noise) * scale`. -/
def quantize_row (num_bits : ℕ) (noise : ℝ) {n : ℕ} (row : Fin n → ℝ) :
    Fin n → ℝ :=
  let max_abs := row_max_abs row + 1e-9
  let max_int : ℝ := 2 ^ (num_bits - 1) - 1
  let scale := max_abs / max_int
  fun j => (⌊row j / scale + noise⌋ : ℝ) * scale

/-- Apply a transformation of last-axis rows to every last-axis fiber of a
tensor. -/
def mapLastAxis (f : ∀ {n : ℕ}, (Fin n → ℝ) → (Fin n → ℝ)) :
    ∀ {s : List ℕ}, Tensor s → Tensor s
  | [], x => x
  | [_], x => f x
  | _ :: _ :: _, x => fun i => mapLastAxis f (x i)

/-- Embeds `simulated_quantize` (adafactor.py lines 405-441).  The guard mirrors
`if not (len(shape) >= 2 and shape[-1] > 1): return x`. -/
def simulated_quantize {s : List ℕ} (x : Tensor s) (num_bits : ℕ)
    (noise : ℝ) : Tensor s :=
  if 2 ≤ s.length ∧ 1 < s.getLastD 0 then
    mapLastAxis (fun {_} row => quantize_row num_bits noise row) x
  else x

/-! ### Slot creation (`_create_slots`, adafactor.py lines 163-187) -/

/-- Embeds `_should_use_factored_second_moment_estimate` (adafactor.py lines
163-173): `self._factored and len(shape) >= 2`. -/
def should_use_factored_second_moment_estimate (factored : Bool)
    (shape : List ℕ) : Bool :=
  factored && decide (2 ≤ shape.length)

/-- One optimizer slot: its name, its shape and the constant every element
is initialized to (`tf.zeros` / `_zeros_slot` always fill with `0`). -/
structure SlotSpec where
  name : String
  shape : List ℕ
  init : ℝ

/-- The slots `_create_slots` (adafactor.py lines 175-187) allocates for a
single variable of shape `shape`:
a momentum slot `"m"` when `self._beta1` is truthy (nonzero), then either
`"vr"` of shape `shape[:-1]` and `"vc"` of shape `shape[:-2] + shape[-1:]`
(factored case) or `"v"` of shape `shape` (full case). -/
def create_slots (factored : Bool) (beta1 : ℝ) (shape : List ℕ) :
    List SlotSpec :=
  (if beta1 = 0 then [] else [⟨"m", shape, 0⟩]) ++
  (if should_use_factored_second_moment_estimate factored shape then
    [⟨"vr", shape.dropLast, 0⟩,
     ⟨"vc", shape.take (shape.length - 2) ++ shape.drop (shape.length - 1), 0⟩]
  else [⟨"v", shape, 0⟩])

/-! ### The dense update rule (`_resource_apply_dense`, adafactor.py
lines 216-278), rank-2 case

The code is split into named definitions, one per intermediate value of
`_resource_apply_dense`; each carries the source line it embeds.  The
variable has shape `[a, b]`; the slots that the python code would not
have created for a given configuration are carried unchanged in the
state record. -/

/-- Static configuration of `AdafactorOptimizer` plus the two schedule
scalars (`self._decay_rate`, `self._learning_rate`) evaluated at the
current global step, as the graph would feed them. -/
structure AFConfig where
  multiply_by_parameter_scale : Bool
  learning_rate : ℝ
  decay_rate : ℝ
  beta1 : ℝ
  clipping_threshold : Option ℝ
  factored : Bool
  simulated_quantize_bits : ℕ
  epsilon1 : ℝ
  epsilon2 : ℝ
  /-- Flag: whether `var.dtype.base_dtype == tf.bfloat16` -/
  is_bfloat16 : Bool
  /-- Pointwise `self._parameter_encoding.encode` (value, noise) -/
  encode : ℝ → ℝ → ℝ
  /-- Pointwise `self._parameter_encoding.decode` -/
  decode : ℝ → ℝ

/-- Mutable per-variable state: the variable and its slots. -/
structure AFState (a b : ℕ) where
  var : Fin a → Fin b → ℝ
  vr : Fin a → ℝ
  vc : Fin b → ℝ
  v : Fin a → Fin b → ℝ
  m_slot : Fin a → Fin b → ℝ

/-- Line 219: `grad_squared = tf.square(grad) + self._epsilon1`. -/
def grad_squared (cfg : AFConfig) {a b : ℕ} (grad : Fin a → Fin b → ℝ) :
    Fin a → Fin b → ℝ :=
  fun i j => grad i j ^ 2 + cfg.epsilon1

/-- Line 220: `grad_squared_mean = tf.reduce_mean(grad_squared)`. -/
def grad_squared_mean (cfg : AFConfig) {a b : ℕ}
    (grad : Fin a → Fin b → ℝ) : ℝ :=
  (∑ i, ∑ j, grad_squared cfg grad i j) / ((a : ℝ) * (b : ℝ))

/-- Lines 223-225: `old_val = var`, decoded when the variable is stored in
bfloat16. -/
def old_val (cfg : AFConfig) {a b : ℕ} (s : AFState a b) :
    Fin a → Fin b → ℝ :=
  if cfg.is_bfloat16 then fun i j => cfg.decode (s.var i j) else s.var

/-- Lines 200-214 and 226-227: `update_scale = self._learning_rate`,
multiplied by `_parameter_scale(old_val) = max (reduce_rms old_val) ε2`
when `multiply_by_parameter_scale` is set. -/
def base_update_scale (cfg : AFConfig) {a b : ℕ} (s : AFState a b) : ℝ :=
  if cfg.multiply_by_parameter_scale then
    cfg.learning_rate *
      max (reduce_rms fun p : Fin a × Fin b => old_val cfg s p.1 p.2)
        cfg.epsilon2
  else cfg.learning_rate

/-- Line 232 (the anti-fusion HACK): the decay rate actually used is
`self._decay_rate + grad_squared_mean * 1e-30`. -/
def effective_decay_rate (cfg : AFConfig) {a b : ℕ}
    (grad : Fin a → Fin b → ℝ) : ℝ :=
  cfg.decay_rate + grad_squared_mean cfg grad * 1e-30

/-- Line 233 (the anti-fusion HACK): the update scale actually used is
`update_scale + grad_squared_mean * 1e-30`. -/
def effective_update_scale (cfg : AFConfig) {a b : ℕ}
    (grad : Fin a → Fin b → ℝ) (s : AFState a b) : ℝ :=
  base_update_scale cfg s + grad_squared_mean cfg grad * 1e-30

/-- Line 235: `mixing_rate = 1.0 - decay_rate`. -/
def mixing_rate (cfg : AFConfig) {a b : ℕ}
    (grad : Fin a → Fin b → ℝ) : ℝ :=
  1 - effective_decay_rate cfg grad

/-- Line 239: `grad_squared_row_mean = tf.reduce_mean(grad_squared, -1)`. -/
def grad_squared_row_mean (cfg : AFConfig) {a b : ℕ}
    (grad : Fin a → Fin b → ℝ) : Fin a → ℝ :=
  fun i => (∑ j, grad_squared cfg grad i j) / (b : ℝ)

/-- Line 240: `grad_squared_col_mean = tf.reduce_mean(grad_squared, -2)`. -/
def grad_squared_col_mean (cfg : AFConfig) {a b : ℕ}
    (grad : Fin a → Fin b → ℝ) : Fin b → ℝ :=
  fun j => (∑ i, grad_squared cfg grad i j) / (a : ℝ)

/-- Line 242: `new_vr = decay_rate * vr + mixing_rate * row_mean`. -/
def new_vr (cfg : AFConfig) {a b : ℕ} (grad : Fin a → Fin b → ℝ)
    (s : AFState a b) : Fin a → ℝ :=
  fun i => effective_decay_rate cfg grad * s.vr i +
    mixing_rate cfg grad * grad_squared_row_mean cfg grad i

/-- Line 244: `new_vc = decay_rate * vc + mixing_rate * col_mean`. -/
def new_vc (cfg : AFConfig) {a b : ℕ} (grad : Fin a → Fin b → ℝ)
    (s : AFState a b) : Fin b → ℝ :=
  fun j => effective_decay_rate cfg grad * s.vc j +
    mixing_rate cfg grad * grad_squared_col_mean cfg grad j

/-- Line 248: `long_term_mean = tf.reduce_mean(new_vr, -1, keepdims=True)`
(a scalar for a rank-2 variable). -/
def long_term_mean (cfg : AFConfig) {a b : ℕ} (grad : Fin a → Fin b → ℝ)
    (s : AFState a b) : ℝ :=
  (∑ i, new_vr cfg grad s i) / (a : ℝ)

/-- Line 254: `new_v = decay_rate * v + mixing_rate * grad_squared`. -/
def new_v (cfg : AFConfig) {a b : ℕ} (grad : Fin a → Fin b → ℝ)
    (s : AFState a b) : Fin a → Fin b → ℝ :=
  fun i j => effective_decay_rate cfg grad * s.v i j +
    mixing_rate cfg grad * grad_squared cfg grad i j

/-- Lines 238-257: the normalized update `x`.  Factored branch (lines
249-251): `r_factor = rsqrt (new_vr / long_term_mean)`,
`c_factor = rsqrt new_vc`, `x = grad * r_factor[:, None] * c_factor[None, :]`;
full branch (line 257): `x = grad * rsqrt new_v`.  For the rank-2 shape
`[a, b]` the factored branch is taken exactly when `self._factored`. -/
def x_normalized (cfg : AFConfig) {a b : ℕ} (grad : Fin a → Fin b → ℝ)
    (s : AFState a b) : Fin a → Fin b → ℝ :=
  if cfg.factored then
    fun i j => grad i j *
      rsqrt (new_vr cfg grad s i / long_term_mean cfg grad s) *
      rsqrt (new_vc cfg grad s j)
  else fun i j => grad i j * rsqrt (new_v cfg grad s i j)

/-- Lines 258-260 (update clipping):
`x /= tf.maximum(1.0, reduce_rms x / clipping_threshold)`. -/
def clip_update {ι : Type} [Fintype ι] (clipping_threshold : ℝ)
    (x : ι → ℝ) : ι → ℝ :=
  fun i => x i / max 1 (reduce_rms x / clipping_threshold)

/-- Lines 258-260: the clipped update (no-op when
`self._clipping_threshold is None`). -/
def x_clipped (cfg : AFConfig) {a b : ℕ} (grad : Fin a → Fin b → ℝ)
    (s : AFState a b) : Fin a → Fin b → ℝ :=
  match cfg.clipping_threshold with
  | some c => fun i j =>
      clip_update c (fun p : Fin a × Fin b => x_normalized cfg grad s p.1 p.2)
        (i, j)
  | none => x_normalized cfg grad s

/-- Line 261: `subtrahend = update_scale * x` (before momentum). -/
def subtrahend_pre (cfg : AFConfig) {a b : ℕ} (grad : Fin a → Fin b → ℝ)
    (s : AFState a b) : Fin a → Fin b → ℝ :=
  fun i j => effective_update_scale cfg grad s * x_clipped cfg grad s i j

/-- Line 264: `new_m = beta1 * m + (1 - beta1) * subtrahend`. -/
def new_m (cfg : AFConfig) {a b : ℕ} (grad : Fin a → Fin b → ℝ)
    (s : AFState a b) : Fin a → Fin b → ℝ :=
  fun i j => cfg.beta1 * s.m_slot i j +
    (1 - cfg.beta1) * subtrahend_pre cfg grad s i j

/-- Lines 262-265: the subtrahend actually applied: `new_m` when
`self._beta1` is truthy, else the unmodified `subtrahend`. -/
def subtrahend (cfg : AFConfig) {a b : ℕ} (grad : Fin a → Fin b → ℝ)
    (s : AFState a b) : Fin a → Fin b → ℝ :=
  if cfg.beta1 = 0 then subtrahend_pre cfg grad s else new_m cfg grad s

/-- Lines 268-275: the value written to the variable.
`new_val = old_val - subtrahend`; re-encoded when the variable is stored
in bfloat16 (line 270); and when `self._simulated_quantize_bits` is
truthy, replaced by `simulated_quantize (var - subtrahend, bits, noise)`
computed from the raw stored `var` (lines 272-275). -/
def new_val (cfg : AFConfig) {a b : ℕ} (grad : Fin a → Fin b → ℝ)
    (s : AFState a b) (noise : ℝ) : Fin a → Fin b → ℝ :=
  let base := fun i j => old_val cfg s i j - subtrahend cfg grad s i j
  let encoded := if cfg.is_bfloat16 then
    fun i j => cfg.encode (base i j) noise else base
  if cfg.simulated_quantize_bits ≠ 0 then
    (simulated_quantize (s := [a, b])
      (fun i j => s.var i j - subtrahend cfg grad s i j)
      cfg.simulated_quantize_bits noise : Tensor [a, b])
  else encoded

/-- Embeds `_resource_apply_dense` (adafactor.py lines 216-278) for a rank-2
variable: the state after one update.  Slots the python code would not
have created (and therefore does not touch) are carried unchanged. -/
def resource_apply_dense (cfg : AFConfig) {a b : ℕ}
    (grad : Fin a → Fin b → ℝ) (s : AFState a b) (noise : ℝ) :
    AFState a b where
  var := new_val cfg grad s noise
  vr := if cfg.factored then new_vr cfg grad s else s.vr
  vc := if cfg.factored then new_vc cfg grad s else s.vc
  v := if cfg.factored then s.v else new_v cfg grad s
  m_slot := if cfg.beta1 = 0 then s.m_slot else new_m cfg grad s

/-! ### The factory (`adafactor_optimizer_from_hparams`, lines 319-354) -/

/-- The hyperparameters the factory reads. -/
structure HParams where
  optimizer_adafactor_decay_type : String
  optimizer_adafactor_beta2 : ℝ
  optimizer_adafactor_memory_exponent : ℝ
  optimizer_adafactor_multiply_by_parameter_scale : Bool
  optimizer_adafactor_beta1 : ℝ
  optimizer_adafactor_clipping_threshold : Option ℝ
  optimizer_adafactor_factored : Bool
  simulated_parameter_quantize_bits : ℕ
  weight_dtype : String

/-- A constructed `AdafactorOptimizer` as the factory returns it: the
constructor arguments it stores.  The decay rate is a schedule, i.e. a
function of the global step. -/
structure AdafactorOptimizer where
  multiply_by_parameter_scale : Bool
  learning_rate : ℝ
  decay_rate : ℕ → ℝ
  beta1 : ℝ
  clipping_threshold : Option ℝ
  factored : Bool
  simulated_quantize_bits : ℕ
  /-- Model of the `parameter_encoding` argument: `some (encode, decode)` of the
  `EighthPowerEncoding` when installed -/
  parameter_encoding : Option ((ℝ → ℝ → ℝ) × (ℝ → ℝ))

/-- Embeds `adafactor_optimizer_from_hparams` (adafactor.py lines 319-354).
An unknown decay type raises `ValueError` before any optimizer is
constructed, modelled by `Except.error`. -/
def adafactor_optimizer_from_hparams (hparams : HParams) (lr : ℝ) :
    Except String AdafactorOptimizer :=
  if hparams.optimizer_adafactor_decay_type = "adam" then
    .ok
      { multiply_by_parameter_scale :=
          hparams.optimizer_adafactor_multiply_by_parameter_scale
        learning_rate := lr
        decay_rate :=
          adafactor_decay_rate_adam hparams.optimizer_adafactor_beta2
        beta1 := hparams.optimizer_adafactor_beta1
        clipping_threshold := hparams.optimizer_adafactor_clipping_threshold
        factored := hparams.optimizer_adafactor_factored
        simulated_quantize_bits := hparams.simulated_parameter_quantize_bits
        parameter_encoding :=
          if hparams.weight_dtype = "bfloat16" then
            some (eighth_power_encode, eighth_power_decode)
          else none }
  else if hparams.optimizer_adafactor_decay_type = "pow" then
    .ok
      { multiply_by_parameter_scale :=
          hparams.optimizer_adafactor_multiply_by_parameter_scale
        learning_rate := lr
        decay_rate :=
          adafactor_decay_rate_pow hparams.optimizer_adafactor_memory_exponent
        beta1 := hparams.optimizer_adafactor_beta1
        clipping_threshold := hparams.optimizer_adafactor_clipping_threshold
        factored := hparams.optimizer_adafactor_factored
        simulated_quantize_bits := hparams.simulated_parameter_quantize_bits
        parameter_encoding :=
          if hparams.weight_dtype = "bfloat16" then
            some (eighth_power_encode, eighth_power_decode)
          else none }
  else .error "unknown optimizer_adafactor_decay_type"

/-! ### Auxiliary definitions used to state the claims -/

/-- Variant of the dense update with the momentum branch (adafactor.py
lines 262-267) textually absent: the subtrahend is always
`update_scale * x` and no momentum state is read or written.  Used to
state that the `beta1 = 0` configuration coincides with it. -/
def new_val_no_momentum (cfg : AFConfig) {a b : ℕ}
    (grad : Fin a → Fin b → ℝ) (s : AFState a b) (noise : ℝ) :
    Fin a → Fin b → ℝ :=
  let base := fun i j => old_val cfg s i j - subtrahend_pre cfg grad s i j
  let encoded := if cfg.is_bfloat16 then
    fun i j => cfg.encode (base i j) noise else base
  if cfg.simulated_quantize_bits ≠ 0 then
    (simulated_quantize (s := [a, b])
      (fun i j => s.var i j - subtrahend_pre cfg grad s i j)
      cfg.simulated_quantize_bits noise : Tensor [a, b])
  else encoded

/-- The dense update with the momentum branch absent (companion of
`new_val_no_momentum`). -/
def resource_apply_dense_no_momentum (cfg : AFConfig) {a b : ℕ}
    (grad : Fin a → Fin b → ℝ) (s : AFState a b) (noise : ℝ) :
    AFState a b where
  var := new_val_no_momentum cfg grad s noise
  vr := if cfg.factored then new_vr cfg grad s else s.vr
  vc := if cfg.factored then new_vc cfg grad s else s.vc
  v := if cfg.factored then s.v else new_v cfg grad s
  m_slot := s.m_slot

/-- Second-moment accumulator slots allocated for a variable: the created
slots other than the momentum slot `"m"`. -/
def accumulator_slots (factored : Bool) (beta1 : ℝ) (shape : List ℕ) :
    List SlotSpec :=
  (create_slots factored beta1 shape).filter fun sl => sl.name ≠ "m"

/-- The fractional position `fpart = (x - cand1) / (cand2 - cand1)` that
`_to_bfloat16_unbiased` computes when encoding `x` with the eighth-power
scheme: fixing the noise to exactly this value makes the randomized
roundoff deterministic. -/
def exact_round_noise (x : ℝ) : ℝ :=
  let y := Real.sign x * encoded_magnitude x
  let xp := y * Real.sign y + 1e-30
  let cand1 := toBfloat16 xp
  let cand2 := toBfloat16 (if cand1 < xp then cand1 * 1.005 else cand1 * 0.995)
  (xp - cand1) / (cand2 - cand1)

/-- One representable low-precision step around `x`, measured in the
decoded domain: the distance between the decodings of the two adjacent
bfloat16 grid points that bracket the exact encoded magnitude of `x`. -/
def decoded_step (x : ℝ) : ℝ :=
  eighth_power_decode (bfFloor (encoded_magnitude x) + bfUlp (encoded_magnitude x)) -
    eighth_power_decode (bfFloor (encoded_magnitude x))

/-- The configuration of the spec's concrete rank-2 example: default
epsilons, default schedules at global step `0`, no clipping, no momentum,
no encoding, factored, multiplied by the parameter scale. -/
def exampleConfig : AFConfig where
  multiply_by_parameter_scale := true
  learning_rate := learning_rate_default true 0
  decay_rate := adafactor_decay_rate_pow 0.8 0
  beta1 := 0
  clipping_threshold := none
  factored := true
  simulated_quantize_bits := 0
  epsilon1 := 1e-30
  epsilon2 := 1e-3
  is_bfloat16 := false
  encode := fun v _ => v
  decode := fun v => v

/-- The gradient of the spec's concrete rank-2 example: all ones. -/
def exampleGrad : Fin 2 → Fin 2 → ℝ := fun _ _ => 1

/-- The state of the spec's concrete rank-2 example: variable and all
slots zero-initialized. -/
def exampleState : AFState 2 2 where
  var := fun _ _ => 0
  vr := fun _ => 0
  vc := fun _ => 0
  v := fun _ _ => 0
  m_slot := fun _ _ => 0

/-- A configuration with simulated quantization enabled, used to witness
the quantization claim. -/
def quantExampleConfig : AFConfig :=
  { exampleConfig with simulated_quantize_bits := 8 }

/-- Concrete hyperparameters (with a configurable decay type selector)
used to witness the factory claim. -/
def exampleHParams (decay_type : String) : HParams where
  optimizer_adafactor_decay_type := decay_type
  optimizer_adafactor_beta2 := 0.999
  optimizer_adafactor_memory_exponent := 0.8
  optimizer_adafactor_multiply_by_parameter_scale := true
  optimizer_adafactor_beta1 := 0
  optimizer_adafactor_clipping_threshold := some 1
  optimizer_adafactor_factored := true
  simulated_parameter_quantize_bits := 0
  weight_dtype := "float32"

/-! ## Theorems -/

/-- C2, counterexample: at global step `t = 1` with exponent `e = 1/2`,
the power decay schedule returns `1 - 2 ^ (-1/2) ≈ 0.293`, which is
strictly below the claimed lower bound `1 - 1/(t+1) = 1/2`. -/
theorem C2_counterexample :
    ¬ (1 - 1 / (((1 : ℕ) : ℝ) + 1) ≤ adafactor_decay_rate_pow (1 / 2) 1) := by
  intro h
  have h1 : adafactor_decay_rate_pow (1 / 2) 1 = 1 - (2 : ℝ) ^ (-(1 / 2) : ℝ) := by
    unfold adafactor_decay_rate_pow
    norm_num
  have h3 : (2 : ℝ) ^ (-(1 / 2) : ℝ) = (Real.sqrt 2)⁻¹ := by
    rw [Real.rpow_neg (by norm_num), ← Real.sqrt_eq_rpow]
  have hs2 : Real.sqrt 2 < 2 := by
    have h5 : Real.sqrt 2 < Real.sqrt 4 := Real.sqrt_lt_sqrt (by norm_num) (by norm_num)
    have h4 : Real.sqrt 4 = 2 := by
      rw [show (4 : ℝ) = 2 ^ 2 by norm_num, Real.sqrt_sq (by norm_num : (0 : ℝ) ≤ 2)]
    linarith
  have hpos : 0 < Real.sqrt 2 := Real.sqrt_pos.mpr (by norm_num)
  have hinv : (2 : ℝ)⁻¹ < (Real.sqrt 2)⁻¹ := by
    apply inv_strictAnti₀ hpos hs2
  rw [h1, h3] at h
  norm_num at h
  linarith

/-- C2 (amended): for every step `t ≥ 0` and exponent `e ∈ (0,1)` the
power schedule returns `d = 1 - (t+1) ^ (-e)` and `0 ≤ d < 1`.  The
claimed lower bound `1 - 1/(t+1) ≤ d` holds only at `t = 0` (where both
sides are `0`) and is refuted at `t = 1` by `C2_counterexample`. -/
theorem C2_pow_decay_rate (t : ℕ) (e : ℝ) (he0 : 0 < e) (_he1 : e < 1) :
    adafactor_decay_rate_pow e t = 1 - ((t : ℝ) + 1) ^ (-e) ∧
    0 ≤ adafactor_decay_rate_pow e t ∧ adafactor_decay_rate_pow e t < 1 := by
  have ht : (1 : ℝ) ≤ (t : ℝ) + 1 := by
    have := Nat.cast_nonneg (α := ℝ) t
    linarith
  refine ⟨rfl, ?_, ?_⟩
  · have h1 : ((t : ℝ) + 1) ^ (-e) ≤ 1 :=
      Real.rpow_le_one_of_one_le_of_nonpos ht (by linarith)
    unfold adafactor_decay_rate_pow
    linarith
  · have h2 : 0 < ((t : ℝ) + 1) ^ (-e) := Real.rpow_pos_of_pos (by linarith) _
    unfold adafactor_decay_rate_pow
    linarith

/-- Witness for `C2_pow_decay_rate` at `t = 0`, `e = 1/2`. -/
theorem C2_pow_decay_rate_witness :
    (0 : ℝ) < 1 / 2 ∧ (1 / 2 : ℝ) < 1 ∧
      (adafactor_decay_rate_pow (1 / 2) 0 = 1 - (((0 : ℕ) : ℝ) + 1) ^ (-(1 / 2) : ℝ) ∧
       0 ≤ adafactor_decay_rate_pow (1 / 2) 0 ∧
       adafactor_decay_rate_pow (1 / 2) 0 < 1) :=
  ⟨by norm_num, by norm_num, C2_pow_decay_rate 0 (1 / 2) (by norm_num) (by norm_num)⟩

/-- C3: the noise generator returns exactly
`(∑ i < 30, frac (phi * 2 ^ i) * bit_i (t+1)) mod 1` with
`phi = (√5 - 1)/2` and `bit_i n = (n >>> i) % 2`; being a pure function
of `t` it is deterministic, and its value lies in `[0, 1)`. -/
theorem C3_noise_from_step_num (t : ℕ) :
    noise_from_step_num t =
      Int.fract (∑ i ∈ Finset.range 30,
        Int.fract ((Real.sqrt 5 - 1) / 2 * 2 ^ i) * (((t + 1) >>> i % 2 : ℕ) : ℝ)) ∧
    0 ≤ noise_from_step_num t ∧ noise_from_step_num t < 1 := by
  refine ⟨?_, Int.fract_nonneg _, Int.fract_lt_one _⟩
  simp [noise_from_step_num, Nat.shiftRight_eq_div_pow]

/-- Dividing every element by a positive scalar divides the
root-mean-square by that scalar. -/
theorem reduce_rms_div {ι : Type} [Fintype ι] (x : ι → ℝ) (d : ℝ)
    (hd : 0 < d) :
    reduce_rms (fun i => x i / d) = reduce_rms x / d := by
  unfold reduce_rms
  simp_rw [div_pow]
  rw [← Finset.sum_div, div_right_comm,
    Real.sqrt_div
      (div_nonneg (Finset.sum_nonneg fun i _ => sq_nonneg (x i))
        (Nat.cast_nonneg _)),
    Real.sqrt_sq hd.le]

/-- C5: with a configured clipping threshold `c ≥ 1`, the update rule
divides the normalized update `x` by `denom = max 1 (rms x / c)`;
if `rms x > c` the post-clip rms equals `c` exactly, if `rms x ≤ c`
then `x` is unchanged, and every element is divided by the same scalar,
so ratios between elements are preserved. -/
theorem C5_update_clipping {ι : Type} [Fintype ι] (c : ℝ) (hc : 1 ≤ c)
    (x : ι → ℝ) :
    (c < reduce_rms x → reduce_rms (clip_update c x) = c) ∧
    (reduce_rms x ≤ c → clip_update c x = x) ∧
    (∀ i j, clip_update c x i * x j = clip_update c x j * x i) := by
  have hc0 : 0 < c := lt_of_lt_of_le one_pos hc
  refine ⟨?_, ?_, ?_⟩
  · intro h
    have hR : 0 < reduce_rms x := lt_trans hc0 h
    have hd : max 1 (reduce_rms x / c) = reduce_rms x / c :=
      max_eq_right ((one_lt_div hc0).mpr h).le
    have hdpos : 0 < reduce_rms x / c := div_pos hR hc0
    unfold clip_update
    rw [hd, reduce_rms_div x _ hdpos]
    field_simp
  · intro h
    have hd : max 1 (reduce_rms x / c) = 1 :=
      max_eq_left ((div_le_one hc0).mpr h)
    funext i
    simp [clip_update, hd]
  · intro i j
    unfold clip_update
    ring

/-- Witness for `C5_update_clipping`: over `Fin 1`, the constant vector
`2` with threshold `1` has rms `2 > 1` and is clipped to rms `1`. -/
theorem C5_update_clipping_witness :
    (1 : ℝ) ≤ 1 ∧ 1 < reduce_rms (fun _ : Fin 1 => (2 : ℝ)) ∧
      reduce_rms (clip_update 1 (fun _ : Fin 1 => (2 : ℝ))) = 1 := by
  have hrms : reduce_rms (fun _ : Fin 1 => (2 : ℝ)) = 2 := by
    unfold reduce_rms
    norm_num
    rw [show (4 : ℝ) = 2 ^ 2 by norm_num,
      Real.sqrt_sq (by norm_num : (0 : ℝ) ≤ 2)]
  refine ⟨le_rfl, by rw [hrms]; norm_num, ?_⟩
  exact (C5_update_clipping 1 le_rfl _).1 (by rw [hrms]; norm_num)

/-- C6: in every dense update call the decay rate and update scale
actually used (`effective_decay_rate`, `effective_update_scale`, which
are what `new_vr`, `new_vc`, `new_v` and `subtrahend_pre` read) are the
schedule outputs plus `mean (grad ^ 2 + epsilon1) * 1e-30`; for a
gradient with nonzero squared mean both strictly exceed the configured
values. -/
theorem C6_anti_fusion {a b : ℕ} (cfg : AFConfig)
    (grad : Fin a → Fin b → ℝ) (s : AFState a b) :
    effective_decay_rate cfg grad =
      cfg.decay_rate +
        (∑ i, ∑ j, (grad i j ^ 2 + cfg.epsilon1)) / ((a : ℝ) * (b : ℝ)) *
          1e-30 ∧
    effective_update_scale cfg grad s =
      base_update_scale cfg s +
        (∑ i, ∑ j, (grad i j ^ 2 + cfg.epsilon1)) / ((a : ℝ) * (b : ℝ)) *
          1e-30 ∧
    (0 < grad_squared_mean cfg grad →
      cfg.decay_rate < effective_decay_rate cfg grad ∧
      base_update_scale cfg s < effective_update_scale cfg grad s) := by
  refine ⟨rfl, rfl, fun h => ⟨?_, ?_⟩⟩
  · have hp : 0 < grad_squared_mean cfg grad * 1e-30 :=
      mul_pos h (by norm_num)
    unfold effective_decay_rate
    linarith
  · have hp : 0 < grad_squared_mean cfg grad * 1e-30 :=
      mul_pos h (by norm_num)
    unfold effective_update_scale
    linarith

/-- Witness for `C6_anti_fusion` at the concrete example configuration,
all-ones gradient and zero state. -/
theorem C6_anti_fusion_witness :
    0 < grad_squared_mean exampleConfig exampleGrad ∧
      (exampleConfig.decay_rate < effective_decay_rate exampleConfig exampleGrad ∧
       base_update_scale exampleConfig exampleState <
         effective_update_scale exampleConfig exampleGrad exampleState) := by
  have h : 0 < grad_squared_mean exampleConfig exampleGrad := by
    simp only [grad_squared_mean, grad_squared, exampleConfig, exampleGrad]
    norm_num
  exact ⟨h, (C6_anti_fusion exampleConfig exampleGrad exampleState).2.2 h⟩

/-- C8: with momentum coefficient `beta1 = 0`, no momentum slot is
created, the momentum slot is not written (it stays whatever it was),
and the dense update produces exactly the state of the update rule with
the momentum branch absent. -/
theorem C8_no_momentum {a b : ℕ} (cfg : AFConfig)
    (grad : Fin a → Fin b → ℝ) (s : AFState a b) (noise : ℝ)
    (shape : List ℕ) (hb : cfg.beta1 = 0) :
    "m" ∉ (create_slots cfg.factored cfg.beta1 shape).map SlotSpec.name ∧
    resource_apply_dense cfg grad s noise =
      resource_apply_dense_no_momentum cfg grad s noise ∧
    (resource_apply_dense cfg grad s noise).m_slot = s.m_slot := by
  have hsub : subtrahend cfg grad s = subtrahend_pre cfg grad s := by
    unfold subtrahend
    rw [if_pos hb]
  refine ⟨?_, ?_, ?_⟩
  · cases hf : should_use_factored_second_moment_estimate cfg.factored shape <;>
      simp [create_slots, hb, hf]
  · have hval : new_val cfg grad s noise =
        new_val_no_momentum cfg grad s noise := by
      unfold new_val new_val_no_momentum
      simp only [hsub]
    unfold resource_apply_dense resource_apply_dense_no_momentum
    simp [hval, hb]
  · simp [resource_apply_dense, hb]

/-- Witness for `C8_no_momentum` at the concrete example configuration
(whose `beta1` is `0`). -/
theorem C8_no_momentum_witness :
    exampleConfig.beta1 = 0 ∧
      ("m" ∉ (create_slots exampleConfig.factored exampleConfig.beta1
          [2, 2]).map SlotSpec.name ∧
       resource_apply_dense exampleConfig exampleGrad exampleState 0 =
         resource_apply_dense_no_momentum exampleConfig exampleGrad
           exampleState 0 ∧
       (resource_apply_dense exampleConfig exampleGrad exampleState 0).m_slot =
         exampleState.m_slot) :=
  ⟨rfl, C8_no_momentum exampleConfig exampleGrad exampleState 0 [2, 2] rfl⟩

/-- C9: with factorization enabled and rank at least 2, exactly a row
accumulator of shape "all dims except the last" and a column
accumulator of shape "all dims except the second-to-last" are
allocated (and no full accumulator); otherwise exactly one full
accumulator with the variable's shape; every created slot is
initialized to zero. -/
theorem C9_slot_allocation (factored : Bool) (beta1 : ℝ)
    (shape : List ℕ) :
    (factored = true → 2 ≤ shape.length →
      accumulator_slots factored beta1 shape =
        [⟨"vr", shape.dropLast, 0⟩,
         ⟨"vc", shape.eraseIdx (shape.length - 2), 0⟩]) ∧
    ((factored = false ∨ shape.length < 2) →
      accumulator_slots factored beta1 shape = [⟨"v", shape, 0⟩]) ∧
    (∀ sl ∈ create_slots factored beta1 shape, sl.init = 0) := by
  refine ⟨?_, ?_, ?_⟩
  · intro hf hlen
    have hs : should_use_factored_second_moment_estimate factored shape =
        true := by
      simp [should_use_factored_second_moment_estimate, hf, hlen]
    have herase : shape.take (shape.length - 2) ++ shape.drop (shape.length - 1) =
        shape.eraseIdx (shape.length - 2) := by
      rw [List.eraseIdx_eq_take_drop_succ]
      have : shape.length - 2 + 1 = shape.length - 1 := by omega
      rw [this]
    unfold accumulator_slots create_slots
    rw [hs, herase]
    by_cases hbeta : beta1 = 0 <;> simp [hbeta]
  · intro hor
    have hs : should_use_factored_second_moment_estimate factored shape =
        false := by
      rcases hor with h | h
      · simp [should_use_factored_second_moment_estimate, h]
      · simp [should_use_factored_second_moment_estimate]
        omega
    unfold accumulator_slots create_slots
    rw [hs]
    by_cases hbeta : beta1 = 0 <;> simp [hbeta]
  · intro sl hsl
    unfold create_slots at hsl
    split_ifs at hsl <;>
      simp only [List.nil_append, List.cons_append, List.mem_cons,
        List.mem_singleton, List.not_mem_nil, or_false] at hsl <;>
      rcases hsl with rfl | rfl | rfl <;> rfl

/-- Witness for `C9_slot_allocation`: factored rank-3 shape `[2,3,4]`
gets `vr : [2,3]`, `vc : [2,4]`; rank-1 shape `[5]` gets `v : [5]`. -/
theorem C9_slot_allocation_witness :
    (2 ≤ ([2, 3, 4] : List ℕ).length ∧
      accumulator_slots true 0 [2, 3, 4] =
        [⟨"vr", [2, 3], 0⟩, ⟨"vc", [2, 4], 0⟩]) ∧
    (([5] : List ℕ).length < 2 ∧
      accumulator_slots true 0 [5] = [⟨"v", [5], 0⟩]) :=
  ⟨⟨by norm_num, (C9_slot_allocation true 0 [2, 3, 4]).1 rfl (by norm_num)⟩,
   ⟨by norm_num, (C9_slot_allocation true 0 [5]).2.1 (Or.inr (by norm_num))⟩⟩

/-- C10: a decay-type selector other than `"adam"` or `"pow"` makes the
factory fail with the `ValueError` message before constructing any
optimizer; the two valid selectors succeed and install the
corresponding schedule. -/
theorem C10_factory (hp : HParams) (lr : ℝ) :
    (hp.optimizer_adafactor_decay_type ≠ "adam" →
     hp.optimizer_adafactor_decay_type ≠ "pow" →
      adafactor_optimizer_from_hparams hp lr =
        .error "unknown optimizer_adafactor_decay_type") ∧
    (hp.optimizer_adafactor_decay_type = "adam" →
      ∃ opt, adafactor_optimizer_from_hparams hp lr = .ok opt ∧
        opt.decay_rate =
          adafactor_decay_rate_adam hp.optimizer_adafactor_beta2) ∧
    (hp.optimizer_adafactor_decay_type = "pow" →
      ∃ opt, adafactor_optimizer_from_hparams hp lr = .ok opt ∧
        opt.decay_rate =
          adafactor_decay_rate_pow hp.optimizer_adafactor_memory_exponent) := by
  refine ⟨fun h1 h2 => ?_, fun h => ?_, fun h => ?_⟩
  · unfold adafactor_optimizer_from_hparams
    rw [if_neg h1, if_neg h2]
  · unfold adafactor_optimizer_from_hparams
    rw [if_pos h]
    exact ⟨_, rfl, rfl⟩
  · have hne : hp.optimizer_adafactor_decay_type ≠ "adam" := by
      rw [h]
      decide
    unfold adafactor_optimizer_from_hparams
    rw [if_neg hne, if_pos h]
    exact ⟨_, rfl, rfl⟩

/-- Witness for `C10_factory` on concrete hyperparameters with selectors
`"foo"`, `"adam"` and `"pow"`. -/
theorem C10_factory_witness :
    adafactor_optimizer_from_hparams (exampleHParams "foo") 1 =
      .error "unknown optimizer_adafactor_decay_type" ∧
    (∃ opt, adafactor_optimizer_from_hparams (exampleHParams "adam") 1 =
        .ok opt ∧
      opt.decay_rate = adafactor_decay_rate_adam
        (exampleHParams "adam").optimizer_adafactor_beta2) ∧
    (∃ opt, adafactor_optimizer_from_hparams (exampleHParams "pow") 1 =
        .ok opt ∧
      opt.decay_rate = adafactor_decay_rate_pow
        (exampleHParams "pow").optimizer_adafactor_memory_exponent) :=
  ⟨(C10_factory (exampleHParams "foo") 1).1 (by decide) (by decide),
   (C10_factory (exampleHParams "adam") 1).2.1 rfl,
   (C10_factory (exampleHParams "pow") 1).2.2 rfl⟩

/-- C1: for a `[2,2]` variable initialized to zeros, gradient all ones,
global step 0, default epsilons, clipping disabled, `beta1 = 0`, no
encoding, factored, multiplied by parameter scale, one dense update
leaves both accumulators equal to `mixing_rate * mean (grad^2 + ε1)`
along their axes — concretely `(1 - (1 + 1e-30) * 1e-30) * (1 + 1e-30)`,
the mixing rate being `1` minus the effective decay rate, whose
schedule part `1 - 1^(-0.8)` is `0` — and the new variable value is
strictly negative and identical across all four entries. -/
theorem C1_concrete_example :
    (∀ i, (resource_apply_dense exampleConfig exampleGrad exampleState 0).vr i =
      (1 - (1 + 1e-30) * 1e-30) * (1 + 1e-30)) ∧
    (∀ j, (resource_apply_dense exampleConfig exampleGrad exampleState 0).vc j =
      (1 - (1 + 1e-30) * 1e-30) * (1 + 1e-30)) ∧
    (∀ i j,
      (resource_apply_dense exampleConfig exampleGrad exampleState 0).var i j < 0) ∧
    (∀ i j i' j',
      (resource_apply_dense exampleConfig exampleGrad exampleState 0).var i j =
      (resource_apply_dense exampleConfig exampleGrad exampleState 0).var i' j') := by
  have hgs : ∀ i j : Fin 2, grad_squared exampleConfig exampleGrad i j =
      1 + 1e-30 := by
    intro i j
    simp [grad_squared, exampleConfig, exampleGrad]
  have hgsm : grad_squared_mean exampleConfig exampleGrad = 1 + 1e-30 := by
    unfold grad_squared_mean
    simp only [Fin.sum_univ_two, hgs]
    norm_num
  have hsched : exampleConfig.decay_rate = 0 := by
    show adafactor_decay_rate_pow 0.8 0 = 0
    unfold adafactor_decay_rate_pow
    norm_num
  have hdecay : effective_decay_rate exampleConfig exampleGrad =
      (1 + 1e-30) * 1e-30 := by
    unfold effective_decay_rate
    rw [hsched, hgsm]
    ring
  have hmix : mixing_rate exampleConfig exampleGrad =
      1 - (1 + 1e-30) * 1e-30 := by
    unfold mixing_rate
    rw [hdecay]
  have hrow : ∀ i, grad_squared_row_mean exampleConfig exampleGrad i =
      1 + 1e-30 := by
    intro i
    unfold grad_squared_row_mean
    simp only [Fin.sum_univ_two, hgs]
    norm_num
  have hcol : ∀ j, grad_squared_col_mean exampleConfig exampleGrad j =
      1 + 1e-30 := by
    intro j
    unfold grad_squared_col_mean
    simp only [Fin.sum_univ_two, hgs]
    norm_num
  have hvr : ∀ i, new_vr exampleConfig exampleGrad exampleState i =
      (1 - (1 + 1e-30) * 1e-30) * (1 + 1e-30) := by
    intro i
    unfold new_vr
    rw [hdecay, hmix, hrow]
    simp [exampleState]
  have hvc : ∀ j, new_vc exampleConfig exampleGrad exampleState j =
      (1 - (1 + 1e-30) * 1e-30) * (1 + 1e-30) := by
    intro j
    unfold new_vc
    rw [hdecay, hmix, hcol]
    simp [exampleState]
  have hA : (0 : ℝ) < (1 - (1 + 1e-30) * 1e-30) * (1 + 1e-30) := by
    norm_num
  have hltm : long_term_mean exampleConfig exampleGrad exampleState =
      (1 - (1 + 1e-30) * 1e-30) * (1 + 1e-30) := by
    unfold long_term_mean
    simp only [Fin.sum_univ_two, hvr]
    norm_num
  have hrf : ∀ i, rsqrt (new_vr exampleConfig exampleGrad exampleState i /
      long_term_mean exampleConfig exampleGrad exampleState) = 1 := by
    intro i
    rw [hvr, hltm, div_self hA.ne']
    unfold rsqrt
    rw [Real.sqrt_one, inv_one]
  have hx : ∀ i j, x_normalized exampleConfig exampleGrad exampleState i j =
      rsqrt ((1 - (1 + 1e-30) * 1e-30) * (1 + 1e-30)) := by
    intro i j
    have hf : exampleConfig.factored = true := rfl
    unfold x_normalized
    rw [if_pos hf]
    rw [hrf, hvc]
    simp [exampleGrad]
  have hclip : x_clipped exampleConfig exampleGrad exampleState =
      x_normalized exampleConfig exampleGrad exampleState := rfl
  have hlr : exampleConfig.learning_rate = 0.01 := by
    show learning_rate_default true 0 = 0.01
    unfold learning_rate_default rsqrt
    norm_num [Real.sqrt_one]
  have ho : old_val exampleConfig exampleState = fun _ _ => (0 : ℝ) := by
    unfold old_val
    simp [exampleConfig, exampleState]
  have hrms0 : reduce_rms
      (fun p : Fin 2 × Fin 2 => old_val exampleConfig exampleState p.1 p.2) =
      0 := by
    rw [ho]
    unfold reduce_rms
    simp
  have hbase : base_update_scale exampleConfig exampleState = 1e-5 := by
    unfold base_update_scale
    rw [if_pos (show exampleConfig.multiply_by_parameter_scale = true from rfl),
      hrms0, hlr]
    rw [show exampleConfig.epsilon2 = 1e-3 from rfl,
      max_eq_right (by norm_num : (0 : ℝ) ≤ 1e-3)]
    norm_num
  have hus : effective_update_scale exampleConfig exampleGrad exampleState =
      1e-5 + (1 + 1e-30) * 1e-30 := by
    unfold effective_update_scale
    rw [hbase, hgsm]
  have huspos : 0 < effective_update_scale exampleConfig exampleGrad
      exampleState := by
    rw [hus]
    norm_num
  have hrsA : 0 < rsqrt ((1 - (1 + 1e-30) * 1e-30) * (1 + 1e-30)) := by
    unfold rsqrt
    exact inv_pos.mpr (Real.sqrt_pos.mpr hA)
  have hsub : ∀ i j, subtrahend exampleConfig exampleGrad exampleState i j =
      effective_update_scale exampleConfig exampleGrad exampleState *
        rsqrt ((1 - (1 + 1e-30) * 1e-30) * (1 + 1e-30)) := by
    intro i j
    unfold subtrahend
    rw [if_pos (show exampleConfig.beta1 = 0 from rfl)]
    unfold subtrahend_pre
    rw [hclip, hx]
  have hvar : ∀ i j,
      (resource_apply_dense exampleConfig exampleGrad exampleState 0).var i j =
      -(effective_update_scale exampleConfig exampleGrad exampleState *
        rsqrt ((1 - (1 + 1e-30) * 1e-30) * (1 + 1e-30))) := by
    intro i j
    have hbase :
        (resource_apply_dense exampleConfig exampleGrad exampleState 0).var i j =
        old_val exampleConfig exampleState i j -
          subtrahend exampleConfig exampleGrad exampleState i j := rfl
    rw [hbase, ho, hsub i j]
    simp
  refine ⟨fun i => ?_, fun j => ?_, fun i j => ?_, fun i j i' j' => ?_⟩
  · have hfield :
        (resource_apply_dense exampleConfig exampleGrad exampleState 0).vr =
        new_vr exampleConfig exampleGrad exampleState := rfl
    rw [hfield, hvr]
  · have hfield :
        (resource_apply_dense exampleConfig exampleGrad exampleState 0).vc =
        new_vc exampleConfig exampleGrad exampleState := rfl
    rw [hfield, hvc]
  · rw [hvar i j]
    exact neg_neg_of_pos (mul_pos huspos hrsA)
  · rw [hvar i j, hvar i' j']

/-- C7: when simulated quantization is configured, the value written
back to the variable is `simulated_quantize (var - subtrahend)` computed
from the raw stored variable (not the computed new value); for tensors
of rank below 2 or last dimension at most 1 `simulated_quantize` is the
identity; and on a rank-2 tensor with last dimension above 1 it rescales
each row by its maximum absolute value plus `1e-9` to the integer range
`2^(bits-1) - 1`, adds the noise, floors, and rescales back. -/
theorem C7_simulated_quantize :
    (∀ (a b : ℕ) (cfg : AFConfig) (grad : Fin a → Fin b → ℝ)
        (s : AFState a b) (noise : ℝ),
      cfg.simulated_quantize_bits ≠ 0 →
      (resource_apply_dense cfg grad s noise).var =
        (simulated_quantize (s := [a, b])
          (fun i j => s.var i j - subtrahend cfg grad s i j)
          cfg.simulated_quantize_bits noise : Tensor [a, b])) ∧
    (∀ (sh : List ℕ) (x : Tensor sh) (bits : ℕ) (noise : ℝ),
      sh.length < 2 ∨ sh.getLastD 0 ≤ 1 →
      simulated_quantize x bits noise = x) ∧
    (∀ (m n : ℕ) (x : Fin m → Fin n → ℝ) (bits : ℕ) (noise : ℝ)
        (i : Fin m) (j : Fin n), 1 < n →
      ((simulated_quantize (s := [m, n]) x bits noise : Tensor [m, n]) i j : ℝ) =
        (⌊x i j / ((row_max_abs (x i) + 1e-9) / ((2 : ℝ) ^ (bits - 1) - 1)) +
            noise⌋ : ℝ) *
          ((row_max_abs (x i) + 1e-9) / ((2 : ℝ) ^ (bits - 1) - 1))) := by
  refine ⟨fun a b cfg grad s noise hbits => ?_,
    fun sh x bits noise h => ?_, fun m n x bits noise i j hn => ?_⟩
  · show new_val cfg grad s noise = _
    simp only [new_val]
    rw [if_pos hbits]
  · unfold simulated_quantize
    rw [if_neg]
    rintro ⟨h1, h2⟩
    rcases h with h | h <;> omega
  · unfold simulated_quantize
    rw [if_pos ⟨by simp, by simpa using hn⟩]
    show quantize_row bits noise (x i) j = _
    rfl

/-- Witness for `C7_simulated_quantize`: the quantizing configuration on
the concrete example state; a rank-1 tensor left unchanged; and the
rank-2 formula at the all-ones gradient. -/
theorem C7_simulated_quantize_witness :
    (quantExampleConfig.simulated_quantize_bits ≠ 0 ∧
      (resource_apply_dense quantExampleConfig exampleGrad exampleState 0).var =
        (simulated_quantize (s := [2, 2])
          (fun i j => exampleState.var i j -
            subtrahend quantExampleConfig exampleGrad exampleState i j)
          quantExampleConfig.simulated_quantize_bits 0 : Tensor [2, 2])) ∧
    (simulated_quantize (s := [3]) (fun _ => (1 : ℝ)) 8 0 =
      fun _ => (1 : ℝ)) ∧
    ((1 : ℕ) < 2 ∧
      ((simulated_quantize (s := [2, 2]) exampleGrad 8 0 : Tensor [2, 2]) 0 0 : ℝ) =
        (⌊exampleGrad 0 0 /
            ((row_max_abs (exampleGrad 0) + 1e-9) /
              ((2 : ℝ) ^ (8 - 1 : ℕ) - 1)) + 0⌋ : ℝ) *
          ((row_max_abs (exampleGrad 0) + 1e-9) /
            ((2 : ℝ) ^ (8 - 1 : ℕ) - 1))) :=
  ⟨⟨by decide,
    C7_simulated_quantize.1 2 2 quantExampleConfig exampleGrad exampleState 0
      (by decide)⟩,
   C7_simulated_quantize.2.1 [3] (fun _ => (1 : ℝ)) 8 0 (Or.inl (by norm_num)),
   ⟨by norm_num,
    C7_simulated_quantize.2.2 2 2 exampleGrad 8 0 0 0 (by norm_num)⟩⟩

/-! ### Facts about the bfloat16 grid model (towards C4) -/

/-- Characterization of `Int.log 2` by the enclosing powers of two. -/
theorem int_log2_eq {y : ℝ} (n : ℤ) (hy : 0 < y)
    (h1 : (2 : ℝ) ^ n ≤ y) (h2 : y < (2 : ℝ) ^ (n + 1)) :
    Int.log 2 y = n := by
  have hlo : n ≤ Int.log 2 y := by
    have h := Int.log_mono_right (b := 2)
      (zpow_pos (by norm_num : (0 : ℝ) < 2) n) h1
    rw [show ((2 : ℝ) ^ n) = (((2 : ℕ) : ℝ)) ^ n by norm_num] at h
    rwa [Int.log_zpow (by norm_num : 1 < 2)] at h
  have hhi : Int.log 2 y ≤ n := by
    by_contra hcon
    push_neg at hcon
    have hstep : (2 : ℝ) ^ (n + 1) ≤ (2 : ℝ) ^ (Int.log 2 y) :=
      zpow_le_zpow_right₀ (by norm_num) (by omega)
    have hself : ((2 : ℕ) : ℝ) ^ (Int.log 2 y) ≤ y :=
      Int.zpow_log_le_self (by norm_num) hy
    norm_num at hself
    linarith
  omega

/-- The grid bracketing of a positive real by powers of two. -/
theorem two_zpow_log_bounds {y : ℝ} (hy : 0 < y) :
    (2 : ℝ) ^ (Int.log 2 y) ≤ y ∧ y < (2 : ℝ) ^ (Int.log 2 y + 1) := by
  have h1 : ((2 : ℕ) : ℝ) ^ (Int.log 2 y) ≤ y :=
    Int.zpow_log_le_self (by norm_num) hy
  have h2 : y < ((2 : ℕ) : ℝ) ^ (Int.log 2 y + 1) :=
    Int.lt_zpow_succ_log_self (by norm_num) y
  norm_num at h1 h2
  exact ⟨h1, h2⟩

/-- The grid spacing is positive. -/
theorem bfUlp_pos (y : ℝ) : 0 < bfUlp y := zpow_pos (by norm_num) _

/-- The significand of a positive real lies in `[128, 256)`. -/
theorem floor_ulp_bounds {y : ℝ} (hy : 0 < y) :
    (128 : ℤ) ≤ ⌊y / bfUlp y⌋ ∧ ⌊y / bfUlp y⌋ < 256 := by
  obtain ⟨h1, h2⟩ := two_zpow_log_bounds hy
  have hupos := bfUlp_pos y
  constructor
  · rw [Int.le_floor, le_div_iff₀ hupos]
    have heq : ((128 : ℤ) : ℝ) * bfUlp y = (2 : ℝ) ^ (Int.log 2 y) := by
      unfold bfUlp bfUlpExp
      rw [show ((128 : ℤ) : ℝ) = (2 : ℝ) ^ (7 : ℤ) by norm_num,
        ← zpow_add₀ (by norm_num : (2 : ℝ) ≠ 0)]
      congr 1
      ring
    rw [heq]
    exact h1
  · rw [Int.floor_lt, div_lt_iff₀ hupos]
    have heq : ((256 : ℤ) : ℝ) * bfUlp y = (2 : ℝ) ^ (Int.log 2 y + 1) := by
      unfold bfUlp bfUlpExp
      rw [show ((256 : ℤ) : ℝ) = (2 : ℝ) ^ (8 : ℤ) by norm_num,
        ← zpow_add₀ (by norm_num : (2 : ℝ) ≠ 0)]
      congr 1
      ring
    rw [heq]
    exact h2

/-- The grid floor is below its argument. -/
theorem bfFloor_le {y : ℝ} (_hy : 0 < y) : bfFloor y ≤ y := by
  unfold bfFloor
  have hupos := bfUlp_pos y
  calc (⌊y / bfUlp y⌋ : ℝ) * bfUlp y
      ≤ (y / bfUlp y) * bfUlp y :=
        mul_le_mul_of_nonneg_right (Int.floor_le _) hupos.le
    _ = y := div_mul_cancel₀ y hupos.ne'

/-- The argument is below the next grid point. -/
theorem lt_bfFloor_add {y : ℝ} (_hy : 0 < y) : y < bfFloor y + bfUlp y := by
  unfold bfFloor
  have hupos := bfUlp_pos y
  have h := Int.lt_floor_add_one (y / bfUlp y)
  calc y = (y / bfUlp y) * bfUlp y := (div_mul_cancel₀ y hupos.ne').symm
    _ < ((⌊y / bfUlp y⌋ : ℝ) + 1) * bfUlp y :=
        mul_lt_mul_of_pos_right h hupos
    _ = (⌊y / bfUlp y⌋ : ℝ) * bfUlp y + bfUlp y := by ring

/-- The grid floor of a positive real is positive. -/
theorem bfFloor_pos {y : ℝ} (hy : 0 < y) : 0 < bfFloor y := by
  unfold bfFloor
  have h := (floor_ulp_bounds hy).1
  have hupos := bfUlp_pos y
  have h' : (128 : ℝ) ≤ (⌊y / bfUlp y⌋ : ℝ) := by exact_mod_cast h
  nlinarith

/-- The grid spacing exceeds a `1/256` fraction of the argument. -/
theorem ulp_lower {y : ℝ} (hy : 0 < y) : y / 256 < bfUlp y := by
  have h2 := (two_zpow_log_bounds hy).2
  have heq : (2 : ℝ) ^ (Int.log 2 y + 1) = 256 * bfUlp y := by
    unfold bfUlp bfUlpExp
    rw [show (256 : ℝ) = (2 : ℝ) ^ (8 : ℤ) by norm_num,
      ← zpow_add₀ (by norm_num : (2 : ℝ) ≠ 0)]
    congr 1
    ring
  rw [heq] at h2
  linarith

/-- The rounding returns one of the two grid points around its argument. -/
theorem toBfloat16Pos_mem (y : ℝ) :
    toBfloat16Pos y = (⌊y / bfUlp y⌋ : ℝ) * bfUlp y ∨
    toBfloat16Pos y = ((⌊y / bfUlp y⌋ : ℝ) + 1) * bfUlp y := by
  simp only [toBfloat16Pos]
  split_ifs
  · exact Or.inl rfl
  · exact Or.inr rfl
  · exact Or.inl rfl
  · exact Or.inr rfl

/-- In the lower half of a cell the rounding goes down. -/
theorem toBfloat16Pos_eq_floor {y : ℝ}
    (h : y / bfUlp y - (⌊y / bfUlp y⌋ : ℝ) < 1 / 2) :
    toBfloat16Pos y = (⌊y / bfUlp y⌋ : ℝ) * bfUlp y := by
  simp only [toBfloat16Pos]
  rw [if_pos h]

/-- Rounding a slightly perturbed positive real: when `0 ≤ e < ulp P / 2`,
`toBfloat16Pos (P + e)` is one of the two grid points bracketing `P`. -/
theorem toBfloat16Pos_nearby (P e : ℝ) (hP : 0 < P) (he0 : 0 ≤ e)
    (he : e < bfUlp P / 2) :
    toBfloat16Pos (P + e) = bfFloor P ∨
    toBfloat16Pos (P + e) = bfFloor P + bfUlp P := by
  have hupos : 0 < bfUlp P := bfUlp_pos P
  obtain ⟨hm128, hm256⟩ := floor_ulp_bounds hP
  have hgrid := two_zpow_log_bounds hP
  have hFle : bfFloor P ≤ P := bfFloor_le hP
  have hPlt : P < bfFloor P + bfUlp P := lt_bfFloor_add hP
  have hyp : 0 < P + e := by linarith
  have hCeq : bfFloor P + bfUlp P = ((⌊P / bfUlp P⌋ : ℝ) + 1) * bfUlp P := by
    unfold bfFloor
    ring
  have h256u : (256 : ℝ) * bfUlp P = (2 : ℝ) ^ (Int.log 2 P + 1) := by
    unfold bfUlp bfUlpExp
    rw [show (256 : ℝ) = (2 : ℝ) ^ (8 : ℤ) by norm_num,
      ← zpow_add₀ (by norm_num : (2 : ℝ) ≠ 0)]
    congr 1
    ring
  by_cases hcell : P + e < bfFloor P + bfUlp P
  · -- still in the cell of `P`
    have hlog : Int.log 2 (P + e) = Int.log 2 P := by
      apply int_log2_eq _ hyp
      · calc (2 : ℝ) ^ (Int.log 2 P) ≤ P := hgrid.1
          _ ≤ P + e := by linarith
      · have hm255 : (⌊P / bfUlp P⌋ : ℝ) ≤ 255 := by
          exact_mod_cast (by omega : ⌊P / bfUlp P⌋ ≤ 255)
        have hFu : bfFloor P + bfUlp P ≤ (2 : ℝ) ^ (Int.log 2 P + 1) := by
          rw [hCeq, ← h256u]
          nlinarith
        linarith
    have hulp : bfUlp (P + e) = bfUlp P := by
      unfold bfUlp bfUlpExp
      rw [hlog]
    have hfloor : ⌊(P + e) / bfUlp (P + e)⌋ = ⌊P / bfUlp P⌋ := by
      rw [hulp, Int.floor_eq_iff]
      constructor
      · have h1 : (⌊P / bfUlp P⌋ : ℝ) ≤ P / bfUlp P := Int.floor_le _
        have h2 : P / bfUlp P ≤ (P + e) / bfUlp P :=
          (div_le_div_iff_of_pos_right hupos).mpr (by linarith)
        linarith
      · rw [div_lt_iff₀ hupos]
        rw [hCeq] at hcell
        exact hcell
    rcases toBfloat16Pos_mem (P + e) with h | h
    · left
      rw [h, hfloor, hulp]
      rfl
    · right
      rw [h, hfloor, hulp, hCeq]
  · -- crossed to the next grid point
    push_neg at hcell
    have hupper : P + e < (bfFloor P + bfUlp P) + bfUlp P / 2 := by linarith
    by_cases hbound : ⌊P / bfUlp P⌋ + 1 < 256
    · -- the next grid point is inside the same binade
      have hm254 : (⌊P / bfUlp P⌋ : ℝ) ≤ 254 := by
        exact_mod_cast (by omega : ⌊P / bfUlp P⌋ ≤ 254)
      have hlog : Int.log 2 (P + e) = Int.log 2 P := by
        apply int_log2_eq _ hyp
        · calc (2 : ℝ) ^ (Int.log 2 P) ≤ P := hgrid.1
            _ ≤ P + e := by linarith
        · rw [hCeq] at hupper
          rw [← h256u]
          nlinarith
      have hulp : bfUlp (P + e) = bfUlp P := by
        unfold bfUlp bfUlpExp
        rw [hlog]
      have hfloor : ⌊(P + e) / bfUlp (P + e)⌋ = ⌊P / bfUlp P⌋ + 1 := by
        rw [hulp, Int.floor_eq_iff]
        constructor
        · rw [le_div_iff₀ hupos]
          push_cast
          rw [hCeq] at hcell
          linarith
        · rw [div_lt_iff₀ hupos]
          push_cast
          rw [hCeq] at hupper
          nlinarith
      have hr : (P + e) / bfUlp (P + e) - (⌊(P + e) / bfUlp (P + e)⌋ : ℝ) <
          1 / 2 := by
        rw [hfloor, hulp]
        push_cast
        rw [sub_lt_iff_lt_add, div_lt_iff₀ hupos]
        rw [hCeq] at hupper
        nlinarith
      right
      rw [toBfloat16Pos_eq_floor hr, hfloor, hulp, hCeq]
      push_cast
      ring
    · -- the next grid point starts the next binade
      have hmeq : ⌊P / bfUlp P⌋ = 255 := by omega
      have hC256 : bfFloor P + bfUlp P = 256 * bfUlp P := by
        rw [hCeq, hmeq]
        push_cast
        ring
      have hCpow : bfFloor P + bfUlp P = (2 : ℝ) ^ (Int.log 2 P + 1) := by
        rw [hC256, h256u]
      have hlog : Int.log 2 (P + e) = Int.log 2 P + 1 := by
        apply int_log2_eq _ hyp
        · rw [← hCpow]
          exact hcell
        · have h2C : (2 : ℝ) ^ (Int.log 2 P + 1 + 1) =
              2 * (2 : ℝ) ^ (Int.log 2 P + 1) := by
            rw [zpow_add_one₀ (by norm_num : (2 : ℝ) ≠ 0)]
            ring
          rw [h2C, ← hCpow, hC256]
          nlinarith
      have hulp2 : bfUlp (P + e) = 2 * bfUlp P := by
        unfold bfUlp bfUlpExp
        rw [hlog, show Int.log 2 P + 1 - 7 = 1 + (Int.log 2 P - 7) by ring,
          zpow_add₀ (by norm_num : (2 : ℝ) ≠ 0), zpow_one]
      have h2u : (0 : ℝ) < 2 * bfUlp P := by linarith
      have hfloor2 : ⌊(P + e) / bfUlp (P + e)⌋ = 128 := by
        rw [hulp2, Int.floor_eq_iff]
        constructor
        · rw [le_div_iff₀ h2u]
          push_cast
          rw [hC256] at hcell
          linarith
        · rw [div_lt_iff₀ h2u]
          push_cast
          rw [hC256] at hupper
          nlinarith
      have hr : (P + e) / bfUlp (P + e) - (⌊(P + e) / bfUlp (P + e)⌋ : ℝ) <
          1 / 2 := by
        rw [hfloor2, hulp2]
        push_cast
        rw [sub_lt_iff_lt_add, div_lt_iff₀ h2u]
        rw [hC256] at hupper
        nlinarith
      right
      rw [toBfloat16Pos_eq_floor hr, hfloor2, hulp2, hC256]
      push_cast
      ring

/-- The decoder is monotone on positive arguments. -/
theorem eighth_power_decode_mono {u v : ℝ} (hu : 0 < u) (huv : u ≤ v) :
    eighth_power_decode u ≤ eighth_power_decode v := by
  have hv : 0 < v := lt_of_lt_of_le hu huv
  unfold eighth_power_decode
  rw [Real.sign_of_pos hu, Real.sign_of_pos hv, abs_of_pos hu, abs_of_pos hv,
    one_mul, one_mul]
  gcongr

/-- The decoder is strictly monotone on positive arguments. -/
theorem eighth_power_decode_strict {u v : ℝ} (hu : 0 < u) (huv : u < v) :
    eighth_power_decode u < eighth_power_decode v := by
  have hv : 0 < v := lt_trans hu huv
  unfold eighth_power_decode
  rw [Real.sign_of_pos hu, Real.sign_of_pos hv, abs_of_pos hu, abs_of_pos hv,
    one_mul, one_mul]
  have h1 : Real.sqrt u < Real.sqrt v := Real.sqrt_lt_sqrt hu.le huv
  have h2 : Real.sqrt (Real.sqrt u) < Real.sqrt (Real.sqrt v) :=
    Real.sqrt_lt_sqrt (Real.sqrt_nonneg _) h1
  have h3 : Real.sqrt (Real.sqrt (Real.sqrt u)) <
      Real.sqrt (Real.sqrt (Real.sqrt v)) :=
    Real.sqrt_lt_sqrt (Real.sqrt_nonneg _) h2
  linarith

/-- The decoder is odd. -/
theorem eighth_power_decode_neg (v : ℝ) :
    eighth_power_decode (-v) = -eighth_power_decode v := by
  unfold eighth_power_decode
  rcases lt_trichotomy v 0 with h | h | h
  · rw [Real.sign_of_neg h, Real.sign_of_pos (neg_pos.mpr h), abs_neg]
    ring
  · rw [h]
    simp
  · rw [Real.sign_of_pos h, Real.sign_of_neg (neg_lt_zero.mpr h), abs_neg]
    ring

/-- Decoding the exact encoded magnitude recovers the absolute value:
three square roots undo three squarings, and `/128` undoes `*128`. -/
theorem eighth_power_decode_encoded_magnitude (x : ℝ) (hx : x ≠ 0) :
    eighth_power_decode (encoded_magnitude x) = |x| := by
  have habs : 0 < |x| := abs_pos.mpr hx
  have hbase : 0 < |x| * 128 := by nlinarith
  have hP : 0 < encoded_magnitude x := by
    unfold encoded_magnitude
    exact pow_pos (pow_pos (pow_pos hbase 2) 2) 2
  unfold eighth_power_decode
  rw [Real.sign_of_pos hP, one_mul, abs_of_pos hP]
  unfold encoded_magnitude
  rw [Real.sqrt_sq (by positivity), Real.sqrt_sq (by positivity),
    Real.sqrt_sq (by positivity)]
  norm_num

/-- Rounding `1` to the bfloat16 grid gives `1` (positive branch). -/
theorem toBfloat16Pos_one : toBfloat16Pos 1 = 1 := by
  have hulp : bfUlp (1 : ℝ) = (2 : ℝ) ^ (-7 : ℤ) := by
    unfold bfUlp bfUlpExp
    rw [Int.log_one_right]
    norm_num
  have hdiv : (1 : ℝ) / bfUlp 1 = 128 := by
    rw [hulp]
    norm_num
  have hfloor : ⌊(1 : ℝ) / bfUlp 1⌋ = 128 := by
    rw [hdiv]
    norm_num
  have hr : (1 : ℝ) / bfUlp 1 - (⌊(1 : ℝ) / bfUlp 1⌋ : ℝ) < 1 / 2 := by
    rw [hdiv]
    norm_num
  rw [toBfloat16Pos_eq_floor hr, hfloor, hulp]
  norm_num

/-- Rounding `1` to the bfloat16 grid gives `1`. -/
theorem toBfloat16_one : toBfloat16 1 = 1 := by
  unfold toBfloat16
  rw [if_pos one_pos, toBfloat16Pos_one]

/-- Rounding `-1` to the bfloat16 grid gives `-1`. -/
theorem toBfloat16_neg_one : toBfloat16 (-1) = -1 := by
  unfold toBfloat16
  rw [if_neg (by norm_num), if_pos (by norm_num)]
  norm_num [toBfloat16Pos_one]

/-- With the noise fixed to the exact fractional position, the
randomized roundoff inside the encoder deterministically returns its
first candidate `to_bfloat16 (|x|^8-magnitude + 1e-30)`. -/
theorem encode_exact_noise (x : ℝ) (hx : x ≠ 0) :
    eighth_power_encode x (exact_round_noise x) =
      toBfloat16 (encoded_magnitude x + 1e-30) * toBfloat16 (Real.sign x) := by
  have habs : 0 < |x| := abs_pos.mpr hx
  have hbase : 0 < |x| * 128 := by nlinarith
  have hP : 0 < encoded_magnitude x := by
    unfold encoded_magnitude
    exact pow_pos (pow_pos (pow_pos hbase 2) 2) 2
  have hsign : Real.sign x = 1 ∨ Real.sign x = -1 := by
    rcases hx.lt_or_lt with h | h
    · right
      exact Real.sign_of_neg h
    · left
      exact Real.sign_of_pos h
  have hysign : Real.sign (Real.sign x * encoded_magnitude x) =
      Real.sign x := by
    rcases hsign with h | h <;> rw [h]
    · rw [one_mul, Real.sign_of_pos hP]
    · rw [neg_one_mul, Real.sign_of_neg (neg_lt_zero.mpr hP)]
  have hxp : Real.sign x * encoded_magnitude x * Real.sign x + 1e-30 =
      encoded_magnitude x + 1e-30 := by
    rcases hsign with h | h <;> rw [h] <;> ring
  unfold eighth_power_encode to_bfloat16_unbiased exact_round_noise
    randomized_roundoff_to_bfloat16
  simp only [hysign, hxp]
  rw [if_neg (lt_irrefl _)]

/-- C4 (amended): for `x` with `1e-5 ≤ |x| ≤ 2^9` and the noise fixed to
exactly the fractional part needed, the eighth-power encode/decode round
trip returns `x` to within one representable low-precision step (the
decoded gap between the two bfloat16 grid points bracketing the exact
encoded magnitude).  The claimed lower end `2^-23` of the range fails
because the encoder adds `1e-30` before rounding, which swamps encoded
magnitudes up to about `1e-30`; see `C4_counterexample`. -/
theorem C4_round_trip (x : ℝ) (hlo : (1e-5 : ℝ) ≤ |x|) (_hhi : |x| ≤ 512) :
    |eighth_power_decode (eighth_power_encode x (exact_round_noise x)) - x| ≤
      decoded_step x := by
  have habs : 0 < |x| := lt_of_lt_of_le (by norm_num) hlo
  have hx : x ≠ 0 := by
    intro h
    rw [h, abs_zero] at habs
    exact lt_irrefl 0 habs
  have hbase : 0 < |x| * 128 := by nlinarith
  have hP : 0 < encoded_magnitude x := by
    unfold encoded_magnitude
    exact pow_pos (pow_pos (pow_pos hbase 2) 2) 2
  have hP8 : encoded_magnitude x = (|x| * 128) ^ 8 := by
    unfold encoded_magnitude
    ring
  have hPlow : ((1e-5 : ℝ) * 128) ^ 8 ≤ encoded_magnitude x := by
    rw [hP8]
    apply pow_le_pow_left₀ (by norm_num) (by nlinarith)
  have heps : (1e-30 : ℝ) < bfUlp (encoded_magnitude x) / 2 := by
    have h1 := ulp_lower hP
    have h2 : (2e-30 : ℝ) < ((1e-5 : ℝ) * 128) ^ 8 / 256 := by norm_num
    linarith
  set P := encoded_magnitude x with hPdef
  have hc1mem := toBfloat16Pos_nearby P 1e-30 hP (by norm_num) heps
  have hc1pos : toBfloat16 (P + 1e-30) = toBfloat16Pos (P + 1e-30) := by
    unfold toBfloat16
    rw [if_pos (by linarith : (0 : ℝ) < P + 1e-30)]
  have henc := encode_exact_noise x hx
  have hupos := bfUlp_pos P
  have hF := bfFloor_pos hP
  have hFleP := bfFloor_le hP
  have hPltC := lt_bfFloor_add hP
  have hdecF_le : eighth_power_decode (bfFloor P) ≤ eighth_power_decode P :=
    eighth_power_decode_mono hF hFleP
  have hdec_le_C : eighth_power_decode P ≤
      eighth_power_decode (bfFloor P + bfUlp P) :=
    eighth_power_decode_mono hP hPltC.le
  have hdecP : eighth_power_decode P = |x| :=
    eighth_power_decode_encoded_magnitude x hx
  have hc1val : toBfloat16 (P + 1e-30) = bfFloor P ∨
      toBfloat16 (P + 1e-30) = bfFloor P + bfUlp P := by
    rw [hc1pos]
    exact hc1mem
  have hdc1 : eighth_power_decode (bfFloor P) ≤
      eighth_power_decode (toBfloat16 (P + 1e-30)) ∧
      eighth_power_decode (toBfloat16 (P + 1e-30)) ≤
        eighth_power_decode (bfFloor P + bfUlp P) := by
    rcases hc1val with h | h <;> rw [h]
    · exact ⟨le_refl _, eighth_power_decode_mono hF (by linarith)⟩
    · exact ⟨eighth_power_decode_mono hF (by linarith), le_refl _⟩
  have hstep : decoded_step x =
      eighth_power_decode (bfFloor P + bfUlp P) -
        eighth_power_decode (bfFloor P) := rfl
  rcases hx.lt_or_lt with hneg | hpos
  · have hsx : Real.sign x = -1 := Real.sign_of_neg hneg
    have hres : eighth_power_decode
        (eighth_power_encode x (exact_round_noise x)) =
        -eighth_power_decode (toBfloat16 (P + 1e-30)) := by
      rw [henc, hsx, toBfloat16_neg_one, mul_neg_one,
        eighth_power_decode_neg]
    rw [hres, hstep]
    have habs_eq : |x| = -x := abs_of_neg hneg
    rw [show -eighth_power_decode (toBfloat16 (P + 1e-30)) - x =
        -(eighth_power_decode (toBfloat16 (P + 1e-30)) - (-x)) by ring,
      abs_neg, ← habs_eq, abs_sub_le_iff]
    constructor <;> linarith [hdc1.1, hdc1.2, hdecF_le, hdec_le_C, hdecP]
  · have hsx : Real.sign x = 1 := Real.sign_of_pos hpos
    have hres : eighth_power_decode
        (eighth_power_encode x (exact_round_noise x)) =
        eighth_power_decode (toBfloat16 (P + 1e-30)) := by
      rw [henc, hsx, toBfloat16_one, mul_one]
    rw [hres, hstep]
    have habs_eq : |x| = x := abs_of_pos hpos
    rw [show eighth_power_decode (toBfloat16 (P + 1e-30)) - x =
        eighth_power_decode (toBfloat16 (P + 1e-30)) - |x| by rw [habs_eq],
      abs_sub_le_iff]
    constructor <;> linarith [hdc1.1, hdc1.2, hdecF_le, hdec_le_C, hdecP]

/-- Witness for `C4_round_trip` at `x = 1`. -/
theorem C4_round_trip_witness :
    (1e-5 : ℝ) ≤ |(1 : ℝ)| ∧ |(1 : ℝ)| ≤ 512 ∧
      |eighth_power_decode (eighth_power_encode 1 (exact_round_noise 1)) - 1| ≤
        decoded_step 1 :=
  ⟨by norm_num, by norm_num, C4_round_trip 1 (by norm_num) (by norm_num)⟩

/-- C4, counterexample: `x = 2^-23`, the bottom of the claimed
representable range, fails the round trip by a huge margin.  Its exact
encoded magnitude is `2^-128`, but the encoder adds `1e-30` before
rounding, so the value stored is near `1e-30` and decodes to about
`1.39e-6` instead of `1.19e-7`, far beyond one representable step. -/
theorem C4_counterexample :
    (2 : ℝ) ^ (-23 : ℤ) ≤ |(2 : ℝ) ^ (-23 : ℤ)| ∧
    |(2 : ℝ) ^ (-23 : ℤ)| ≤ (2 : ℝ) ^ (9 : ℤ) ∧
    ¬ (|eighth_power_decode (eighth_power_encode ((2 : ℝ) ^ (-23 : ℤ))
          (exact_round_noise ((2 : ℝ) ^ (-23 : ℤ)))) - (2 : ℝ) ^ (-23 : ℤ)| ≤
        decoded_step ((2 : ℝ) ^ (-23 : ℤ))) := by
  have hx0pos : (0 : ℝ) < (2 : ℝ) ^ (-23 : ℤ) := by positivity
  have hx0ne : (2 : ℝ) ^ (-23 : ℤ) ≠ 0 := hx0pos.ne'
  refine ⟨le_abs_self _, by rw [abs_of_pos hx0pos]; norm_num, ?_⟩
  -- the exact encoded magnitude is 2^-128
  have hem : encoded_magnitude ((2 : ℝ) ^ (-23 : ℤ)) = (2 : ℝ) ^ (-128 : ℤ) := by
    unfold encoded_magnitude
    rw [abs_of_pos hx0pos]
    norm_num
  -- the value actually rounded is 2^-128 + 1e-30, whose cell has ulp 2^-107
  have hxp_pos : (0 : ℝ) < (2 : ℝ) ^ (-128 : ℤ) + 1e-30 := by positivity
  have hlog : Int.log 2 ((2 : ℝ) ^ (-128 : ℤ) + 1e-30) = -100 := by
    apply int_log2_eq _ hxp_pos
    · norm_num
    · norm_num
  have hulp : bfUlp ((2 : ℝ) ^ (-128 : ℤ) + 1e-30) = (2 : ℝ) ^ (-107 : ℤ) := by
    unfold bfUlp bfUlpExp
    rw [hlog]
    norm_num
  have hfloor : ⌊((2 : ℝ) ^ (-128 : ℤ) + 1e-30) /
      bfUlp ((2 : ℝ) ^ (-128 : ℤ) + 1e-30)⌋ = 162 := by
    rw [hulp, Int.floor_eq_iff]
    constructor
    · rw [le_div_iff₀ (by positivity)]
      push_cast
      norm_num
    · rw [div_lt_iff₀ (by positivity)]
      push_cast
      norm_num
  have hr : ((2 : ℝ) ^ (-128 : ℤ) + 1e-30) /
        bfUlp ((2 : ℝ) ^ (-128 : ℤ) + 1e-30) -
      (⌊((2 : ℝ) ^ (-128 : ℤ) + 1e-30) /
        bfUlp ((2 : ℝ) ^ (-128 : ℤ) + 1e-30)⌋ : ℝ) < 1 / 2 := by
    rw [hfloor, hulp, sub_lt_iff_lt_add, div_lt_iff₀ (by positivity)]
    push_cast
    norm_num
  have hc1 : toBfloat16 ((2 : ℝ) ^ (-128 : ℤ) + 1e-30) =
      162 * (2 : ℝ) ^ (-107 : ℤ) := by
    unfold toBfloat16
    rw [if_pos hxp_pos, toBfloat16Pos_eq_floor hr, hfloor, hulp]
    push_cast
    ring
  -- the encoded value
  have hencval : eighth_power_encode ((2 : ℝ) ^ (-23 : ℤ))
      (exact_round_noise ((2 : ℝ) ^ (-23 : ℤ))) =
      162 * (2 : ℝ) ^ (-107 : ℤ) := by
    rw [encode_exact_noise _ hx0ne, hem, hc1, Real.sign_of_pos hx0pos,
      toBfloat16_one, mul_one]
  -- the decoded step at x0
  have hlogP : Int.log 2 ((2 : ℝ) ^ (-128 : ℤ)) = -128 := by
    apply int_log2_eq _ (by positivity)
    · norm_num
    · norm_num
  have hulpP : bfUlp ((2 : ℝ) ^ (-128 : ℤ)) = (2 : ℝ) ^ (-135 : ℤ) := by
    unfold bfUlp bfUlpExp
    rw [hlogP]
    norm_num
  have hbfF : bfFloor ((2 : ℝ) ^ (-128 : ℤ)) = (2 : ℝ) ^ (-128 : ℤ) := by
    unfold bfFloor
    rw [hulpP, show ⌊(2 : ℝ) ^ (-128 : ℤ) / (2 : ℝ) ^ (-135 : ℤ)⌋ = 128 by
      rw [show (2 : ℝ) ^ (-128 : ℤ) / (2 : ℝ) ^ (-135 : ℤ) = 128 by
        rw [div_eq_iff (by positivity)]
        norm_num]
      norm_num]
    push_cast
    norm_num
  have hstep : decoded_step ((2 : ℝ) ^ (-23 : ℤ)) =
      eighth_power_decode ((2 : ℝ) ^ (-128 : ℤ) + (2 : ℝ) ^ (-135 : ℤ)) -
        eighth_power_decode ((2 : ℝ) ^ (-128 : ℤ)) := by
    unfold decoded_step
    rw [hem, hbfF, hulpP]
  -- decode of the exact magnitude is x0 itself
  have hdecP : eighth_power_decode ((2 : ℝ) ^ (-128 : ℤ)) =
      (2 : ℝ) ^ (-23 : ℤ) := by
    rw [← hem, eighth_power_decode_encoded_magnitude _ hx0ne,
      abs_of_pos hx0pos]
  -- strict monotonicity separates the stored value from one step
  have hgt : eighth_power_decode ((2 : ℝ) ^ (-128 : ℤ) + (2 : ℝ) ^ (-135 : ℤ)) <
      eighth_power_decode (162 * (2 : ℝ) ^ (-107 : ℤ)) := by
    apply eighth_power_decode_strict (by positivity)
    norm_num
  intro habs
  rw [hencval, hstep] at habs
  have hle := le_abs_self (eighth_power_decode (162 * (2 : ℝ) ^ (-107 : ℤ)) -
    (2 : ℝ) ^ (-23 : ℤ))
  linarith [habs, hle, hgt, hdecP]

end


